import Mathlib

/-!
Verification of the transcript-summarising pipeline (`transcripts.py`).

The Python source is shallowly embedded: text is `List Char`, Python dicts are
association lists with insertion-order preserving update (`dinsert`), floats
are `ℚ`, and fallible code (IndexError / KeyError / the structural check)
returns `Except PyErr`.  Each regex used by the source is embedded as an
explicit left-to-right scanner with the same matching semantics on the
pattern actually written in the source.
-/

namespace Transcripts

/-- Failure kinds the Python code can raise: `IndexError` from `findall(...)[0]`,
`KeyError` from dictionary subscripts, and the explicit
`Exception("Splitting by semesters went wrong.")` structural check. -/
inductive PyErr where
  | index : PyErr
  | key : PyErr
  | structural : PyErr
deriving DecidableEq

deriving instance DecidableEq for Except

/-- ASCII digit test, `[0-9]` in the source's regexes. -/
def isDigit09 (c : Char) : Bool := 48 ≤ c.toNat && c.toNat ≤ 57

/-- ASCII uppercase test, `[A-Z]` in the source's regexes. -/
def isUpperAZ (c : Char) : Bool := 65 ≤ c.toNat && c.toNat ≤ 90

/-- Numeric value of a digit character. -/
def digitVal (c : Char) : Nat := c.toNat - 48

/-- Rational addition written through `mkRat` so that the kernel can evaluate
it on concrete inputs; provably the ordinary `+` (see `qAdd_eq`). -/
def qAdd (a b : ℚ) : ℚ := mkRat (a.num * b.den + b.num * a.den) (a.den * b.den)

/-- Rational multiplication through `mkRat`; provably the ordinary `*`. -/
def qMul (a b : ℚ) : ℚ := mkRat (a.num * b.num) (a.den * b.den)

/-- Rational division through `Rat.divInt`; provably the ordinary `/`. -/
def qDiv (a b : ℚ) : ℚ := Rat.divInt (a.num * b.den) (a.den * b.num)

/-- Python's `sum` over a list of floats, via `qAdd`; provably `List.sum`. -/
def qSum : List ℚ → ℚ
  | [] => 0
  | x :: xs => qAdd x (qSum xs)

/-- Lookup in a Python dict modelled as an association list
(first binding wins; `dinsert` keeps the list duplicate-free). -/
def dlookup {α : Type} (k : List Char) : List (List Char × α) → Option α
  | [] => none
  | (k₂, v) :: rest => if k₂ = k then some v else dlookup k rest

/-- Python dict assignment `d[k] = v`: overwrite in place if the key exists,
otherwise append at the end (Python dicts preserve insertion order). -/
def dinsert {α : Type} (k : List Char) (v : α) : List (List Char × α) → List (List Char × α)
  | [] => [(k, v)]
  | (k₂, v₂) :: rest => if k₂ = k then (k, v) :: rest else (k₂, v₂) :: dinsert k v rest

/-- Python `d.update(kvs)`: assign every pair in order. -/
def dupdate {α : Type} (d : List (List Char × α)) (kvs : List (List Char × α)) :
    List (List Char × α) :=
  kvs.foldl (fun d p => dinsert p.1 p.2 d) d

/-- Leftmost occurrence of `sep` in `text`: returns the part strictly before
the occurrence and the part strictly after it. -/
def findOcc (sep : List Char) : List Char → Option (List Char × List Char)
  | [] => if sep.isPrefixOf ([] : List Char) then some ([], []) else none
  | c :: rest =>
    if sep.isPrefixOf (c :: rest) then some ([], (c :: rest).drop sep.length)
    else (findOcc sep rest).map fun p => (c :: p.1, p.2)

/-- Fuelled splitter on a literal separator, the semantics of Python
`re.split(sep, text)` for a literal pattern: pieces between the
non-overlapping leftmost occurrences of `sep`. -/
def splitOnF (sep : List Char) : Nat → List Char → List (List Char)
  | 0, text => [text]
  | fuel + 1, text =>
    match findOcc sep text with
    | none => [text]
    | some (b, a) => b :: splitOnF sep fuel a

/-- `re.split` on a literal separator. -/
def splitOnL (sep text : List Char) : List (List Char) :=
  splitOnF sep (text.length + 1) text

/-- Fuelled count of non-overlapping leftmost occurrences of `sep`. -/
def countOccF (sep : List Char) : Nat → List Char → Nat
  | 0, _ => 0
  | fuel + 1, text =>
    match findOcc sep text with
    | none => 0
    | some (_, a) => countOccF sep fuel a + 1

/-- Number of non-overlapping occurrences of `sep` in `text`. -/
def countOcc (sep text : List Char) : Nat :=
  countOccF sep (text.length + 1) text

/-- Concatenation of a list of lists. -/
def flatJoin {α : Type} : List (List α) → List α
  | [] => []
  | x :: xs => x ++ flatJoin xs

/-- `separate_students` (transcripts.py:105): split the normalized text at the
`name_splitter` delimiter, drop the preamble before the first occurrence, and
re-prepend the delimiter to every remaining chunk.  (The optional
`name_ret=True` return of captured names is not used by the pipeline.) -/
def separate_students (text : List Char)
    (name_splitter : List Char := "Name : ".data) : List (List Char) :=
  ((splitOnL name_splitter text).drop 1).map fun t => name_splitter ++ t

/-- One alternative of the semester-header pattern
`(Fall 20..|Spring 20..|Summer 20..|Winter 20..)`: literal prefix `p`
followed by two arbitrary non-newline characters (`.` does not match `\n`).
Returns the matched header and the remaining text. -/
def matchSeasonAt (p s : List Char) : Option (List Char × List Char) :=
  if p.isPrefixOf s then
    match s.drop p.length with
    | c₁ :: c₂ :: rest =>
      if c₁ ≠ '\n' && c₂ ≠ '\n' then some (p ++ [c₁, c₂], rest) else none
    | _ => none
  else none

/-- Try the four season alternatives of the semester-header regex at the
current position, in the order they appear in the source pattern. -/
def matchSemHeader (s : List Char) : Option (List Char × List Char) :=
  match matchSeasonAt "Fall 20".data s with
  | some r => some r
  | none =>
    match matchSeasonAt "Spring 20".data s with
    | some r => some r
    | none =>
      match matchSeasonAt "Summer 20".data s with
      | some r => some r
      | none => matchSeasonAt "Winter 20".data s

/-- Prepend a character to the first chunk of a chunk list. -/
def consHead (c : Char) : List (List Char) → List (List Char)
  | [] => [[c]]
  | x :: xs => (c :: x) :: xs

/-- Fuelled scan implementing
`re.split("(Fall 20..|Spring 20..|Summer 20..|Winter 20..)", transcript)`:
because the pattern is one capturing group, `re.split` interleaves the text
pieces with the captured separators. -/
def semSplitF : Nat → List Char → List (List Char)
  | 0, text => [text]
  | fuel + 1, text =>
    match matchSemHeader text with
    | some (hdr, rest) => [] :: hdr :: semSplitF fuel rest
    | none =>
      match text with
      | [] => [[]]
      | c :: rest => consHead c (semSplitF fuel rest)

/-- The semester split of a student block (transcripts.py:228). -/
def semSplit (text : List Char) : List (List Char) :=
  semSplitF (text.length + 1) text

/-- Fuelled global replacement of the pattern `20([0-9][0-9])` by the captured
two digits, the first substitution of `sem_abbr` (transcripts.py:264). -/
def replace20F : Nat → List Char → List Char
  | 0, text => text
  | fuel + 1, text =>
    match text with
    | '2' :: '0' :: d₁ :: d₂ :: rest =>
      if isDigit09 d₁ && isDigit09 d₂ then d₁ :: d₂ :: replace20F fuel rest
      else '2' :: replace20F fuel ('0' :: d₁ :: d₂ :: rest)
    | c :: rest => c :: replace20F fuel rest
    | [] => []

/-- Fuelled global replacement of a literal pattern, Python
`re.sub(pat, rep, text)` for the literal season names. -/
def replaceAllF (pat rep : List Char) : Nat → List Char → List Char
  | 0, text => text
  | fuel + 1, text =>
    if pat.isPrefixOf text && !pat.isEmpty then
      rep ++ replaceAllF pat rep fuel (text.drop pat.length)
    else
      match text with
      | [] => []
      | c :: rest => c :: replaceAllF pat rep fuel rest

/-- Literal global replacement. -/
def replaceLit (pat rep text : List Char) : List Char :=
  replaceAllF pat rep text.length text

/-- `sem_abbr` (transcripts.py:262): abbreviate a semester header, e.g.
`"Fall 2021"` to `"F21"`, applying the source's five substitutions in order. -/
def sem_abbr (s : List Char) : List Char :=
  replaceLit "Winter ".data "Win".data
    (replaceLit "Summer ".data "Sum".data
      (replaceLit "Spring ".data "S".data
        (replaceLit "Fall ".data "F".data
          (replace20F s.length s))))

/-- First match of a pattern `label(.*)\n`, the semantics of
`re.findall(label + "(.*)\n", text)[0]`: the text between the leftmost
occurrence of the label that is followed by a newline and that newline.
(`.*` cannot cross a newline, so the greedy capture stops at the next one.) -/
def findLabelFirst (label text : List Char) : Option (List Char) :=
  match findOcc label text with
  | none => none
  | some (_, a) =>
    match findOcc ['\n'] a with
    | none => none
    | some (b, _) => some b

/-- Does the line fragment contain an occurrence of
`" [0-9]\.[0-9][0-9]"` starting here? -/
def isSpaceCredAt : List Char → Bool
  | ' ' :: a :: '.' :: b :: c :: _ => isDigit09 a && isDigit09 b && isDigit09 c
  | _ => false

/-- Does the line fragment contain `" [0-9]\.[0-9][0-9]"` anywhere? -/
def hasSpaceCred : List Char → Bool
  | [] => false
  | c :: rest => isSpaceCredAt (c :: rest) || hasSpaceCred rest

/-- Attempt of the course-line pattern `subj + " .* [0-9]\.[0-9][0-9].*\n"`
at the current position: the subject plus a space must match here, the rest
of the current line must contain a space followed by a credit token, and the
whole match extends to (and includes) the line's newline. -/
def matchCourseLineAt (subj text : List Char) : Option (List Char × List Char) :=
  if (subj ++ [' ']).isPrefixOf text then
    match findOcc ['\n'] text with
    | some (body, rest) =>
      if hasSpaceCred (body.drop (subj.length + 1)) then some (body ++ ['\n'], rest)
      else none
    | none => none
  else none

/-- Fuelled left-to-right scan for all non-overlapping course-line matches,
`re.findall(subj + " .* [0-9]\.[0-9][0-9].*\n", info)` (transcripts.py:240). -/
def findCourseLinesF (subj : List Char) : Nat → List Char → List (List Char)
  | 0, _ => []
  | fuel + 1, text =>
    match matchCourseLineAt subj text with
    | some (line, rest) => line :: findCourseLinesF subj fuel rest
    | none =>
      match text with
      | [] => []
      | _ :: rest => findCourseLinesF subj fuel rest

/-- All course lines of one semester body. -/
def findCourseLines (subj info : List Char) : List (List Char) :=
  findCourseLinesF subj (info.length + 1) info

/-- Maximal run of leading digits. -/
def takeDigits : List Char → (List Char × List Char)
  | [] => ([], [])
  | c :: rest =>
    if isDigit09 c then
      let p := takeDigits rest
      (c :: p.1, p.2)
    else ([], c :: rest)

/-- Attempt of `subj + " ([0-9]+[A-Z]?|NE) "` at the current position
(transcripts.py:243).  The first alternative takes a maximal digit run, an
optional uppercase letter, then requires a space; shrinking the digit run can
never succeed, so no further backtracking is modelled.  The second
alternative is the literal token `NE` followed by a space. -/
def matchCourseNumAt (subj text : List Char) : Option (List Char) :=
  if (subj ++ [' ']).isPrefixOf text then
    let r := text.drop (subj.length + 1)
    match takeDigits r with
    | ([], _) => if ("NE ".data).isPrefixOf r then some "NE".data else none
    | (ds, r₂) =>
      match r₂ with
      | ' ' :: _ => some ds
      | u :: ' ' :: _ => if isUpperAZ u then some (ds ++ [u]) else none
      | _ => none
  else none

/-- Fuelled scan for the first course-number match on a line,
`re.findall(subj + " ([0-9]+[A-Z]?|NE) ", line)[0]`. -/
def findCourseNumF (subj : List Char) : Nat → List Char → Option (List Char)
  | 0, _ => none
  | fuel + 1, text =>
    match matchCourseNumAt subj text with
    | some num => some num
    | none =>
      match text with
      | [] => none
      | _ :: rest => findCourseNumF subj fuel rest

/-- First course number on a line, if any. -/
def findCourseNum (subj line : List Char) : Option (List Char) :=
  findCourseNumF subj (line.length + 1) line

/-- Attempt of the credit token `[0-9]\.[0-9][0-9]` at the current position;
`float` of the token is exact on such strings, embedded as a rational. -/
def matchCredAt : List Char → Option ℚ
  | a :: '.' :: b :: c :: _ =>
    if isDigit09 a && isDigit09 b && isDigit09 c then
      some (mkRat (digitVal a * 100 + digitVal b * 10 + digitVal c) 100)
    else none
  | _ => none

/-- Fuelled scan for the first credit token on a line,
`float(re.findall("[0-9]\.[0-9][0-9]", line)[0])` (transcripts.py:247). -/
def findFirstCredF : Nat → List Char → Option ℚ
  | 0, _ => none
  | fuel + 1, text =>
    match matchCredAt text with
    | some v => some v
    | none =>
      match text with
      | [] => none
      | _ :: rest => findFirstCredF fuel rest

/-- First credit token on a line, if any. -/
def findFirstCred (line : List Char) : Option ℚ :=
  findFirstCredF (line.length + 1) line

/-- The optional `\+?\-?` tail of the grade group: each suffix is matched
greedily if present, so a grade can carry `+`, `-`, or both (in that order). -/
def gradeTail : List Char → List Char
  | [] => []
  | c :: rest =>
    if c = '+' then
      match rest with
      | c₂ :: _ => if c₂ = '-' then ['+', '-'] else ['+']
      | [] => ['+']
    else if c = '-' then ['-']
    else []

/-- Attempt of `[0-9]\.[0-9][0-9] [0-9]\.[0-9][0-9] ([A-Z]\+?\-?)` at the
current position (transcripts.py:251). -/
def matchGradeAt : List Char → Option (List Char)
  | a :: '.' :: b :: c :: ' ' :: d :: '.' :: e :: f :: ' ' :: g :: rest =>
    if isDigit09 a && isDigit09 b && isDigit09 c && isDigit09 d && isDigit09 e &&
        isDigit09 f && isUpperAZ g then
      some (g :: gradeTail rest)
    else none
  | _ => none

/-- Fuelled scan for the first grade match on a line. -/
def findGradeF : Nat → List Char → Option (List Char)
  | 0, _ => none
  | fuel + 1, text =>
    match matchGradeAt text with
    | some g => some g
    | none =>
      match text with
      | [] => none
      | _ :: rest => findGradeF fuel rest

/-- First grade match on a line, if any. -/
def findGrade (line : List Char) : Option (List Char) :=
  findGradeF (line.length + 1) line

/-- Per-student grades mapping `{course: grade}` (a Python dict). -/
abbrev GradesDict := List (List Char × List Char)

/-- The run-wide credit table `creds` (a Python dict, shared by reference). -/
abbrev CredTable := List (List Char × ℚ)

/-- The body of the inner loop of `grades_of_subj` (transcripts.py:242-257)
for one matched course line, given the pair `(semester, line)`: extract the
course number (IndexError if absent), record the line's first credit token
into `creds` only if the course is not already present (IndexError if the
token is absent), and store the extracted grade — or the abbreviated semester
label when the line carries no completed grade. -/
def processLine (subj : List Char) (st : GradesDict × CredTable)
    (p : List Char × List Char) : Except PyErr (GradesDict × CredTable) :=
  match findCourseNum subj p.2 with
  | none => Except.error PyErr.index
  | some num =>
    match (if (dlookup (subj ++ ' ' :: num) st.2).isSome then some st.2
           else (findFirstCred p.2).map fun v => dinsert (subj ++ ' ' :: num) v st.2 :
           Option CredTable) with
    | none => Except.error PyErr.index
    | some c₂ =>
      Except.ok (dinsert (subj ++ ' ' :: num) ((findGrade p.2).getD (sem_abbr p.1)) st.1, c₂)

/-- Split the even-length tail of the semester split into
`(label, body)` pairs, the source's
`semester = semester_split[2*i+1]; info = semester_split[2*i+2]`. -/
def pairUp {α : Type} : List α → List (α × α)
  | a :: b :: rest => (a, b) :: pairUp rest
  | _ => []

/-- All `(semester, course line)` pairs of a transcript in document order. -/
def semesterLines (subj : List Char) : List (List Char × List Char) →
    List (List Char × List Char)
  | [] => []
  | (sem, info) :: rest =>
    ((findCourseLines subj info).map fun l => (sem, l)) ++ semesterLines subj rest

/-- `grades_of_subj` (transcripts.py:214): split the transcript by semester
headers (raising the structural error on an even split), read the student's
`Plan` from the final segment, then scan every semester body's course lines in
document order, threading the shared credit table through. -/
def grades_of_subj (subj transcript : List Char) (creds : CredTable) :
    Except PyErr (GradesDict × CredTable) :=
  let parts := semSplit transcript
  if parts.length % 2 ≠ 1 then Except.error PyErr.structural
  else
    let gd₀ : GradesDict :=
      match findLabelFirst "Plan : ".data (parts.getLastD []) with
      | some p => [("Plan".data, p)]
      | none => []
    (semesterLines subj (pairUp (parts.drop 1))).foldlM (processLine subj) (gd₀, creds)

/-- The grade-point table `GPA_VAL` (transcripts.py:53), as a partial map:
`g in GPA_VAL` is `(GPA_VAL g).isSome`. -/
def GPA_VAL (g : List Char) : Option ℚ :=
  if g = "A".data then some 4
  else if g = "A-".data then some (mkRat 3667 1000)
  else if g = "B+".data then some (mkRat 3333 1000)
  else if g = "B".data then some 3
  else if g = "B-".data then some (mkRat 2667 1000)
  else if g = "C+".data then some (mkRat 2333 1000)
  else if g = "C".data then some 2
  else if g = "C-".data then some (mkRat 1667 1000)
  else if g = "D".data then some 1
  else if g = "F".data then some 0
  else none

/-- The four per-subject summary quantities of `subj_summary`; a `gpa` of
`none` embeds `np.nan`. -/
structure SubjSumm where
  num_taken : Nat
  creds_taken : ℚ
  gpa : Option ℚ
  num_in_progress : Nat
deriving DecidableEq

/-- The `courses_to_count` comprehension of `subj_summary`
(transcripts.py:167): entries whose course is not ignored and whose value is
a key of the grade-point table. -/
def countedCourses (ignore : List (List Char)) (subj_grades : GradesDict) : GradesDict :=
  subj_grades.filter fun p => decide (p.1 ∉ ignore) && (GPA_VAL p.2).isSome

/-- `[creds[course] for course in courses_to_count]`: each lookup raises
`KeyError` (`none`) when the course has no credit entry. -/
def credsOf (creds : CredTable) : GradesDict → Option (List ℚ)
  | [] => some []
  | p :: rest =>
    match dlookup p.1 creds with
    | none => none
    | some v => (credsOf creds rest).map fun vs => v :: vs

/-- `[GPA_VAL[subj_grades[course]]*creds[course] for course in courses_to_count]`. -/
def weightedPoints (creds : CredTable) : GradesDict → Option (List ℚ)
  | [] => some []
  | p :: rest =>
    match GPA_VAL p.2, dlookup p.1 creds with
    | some g, some c => (weightedPoints creds rest).map fun vs => qMul g c :: vs
    | _, _ => none

/-- `subj_summary` (transcripts.py:157), with the configurable globals
`IGNORE_COURSES[subj]` and `CURR_SEM` passed explicitly (the source marks
them "designed to be modified"); `none` embeds a `KeyError` on the shared
credit table, and a `gpa` of `none` embeds `np.nan`. -/
def subj_summary (ignore : List (List Char)) (curr_sem : List Char)
    (subj_grades : GradesDict) (creds : CredTable) : Option SubjSumm :=
  match credsOf creds (countedCourses ignore subj_grades) with
  | none => none
  | some cs =>
    match weightedPoints creds (countedCourses ignore subj_grades) with
    | none => none
    | some gs =>
      some
        { num_taken := (countedCourses ignore subj_grades).length
          creds_taken := qSum cs
          gpa := if 0 < qSum cs then some (qDiv (qSum gs) (qSum cs)) else none
          num_in_progress :=
            (subj_grades.filter fun p =>
              decide (p.1 ∉ ignore) && decide (p.2 = curr_sem)).length }

/-- The `(course_key, stored value)` pair a course line contributes, if its
course number parses: key `f"{subj} {course_num}"`, value the extracted grade
or the abbreviated semester label. -/
def lineEntry (subj : List Char) (p : List Char × List Char) :
    Option (List Char × List Char) :=
  (findCourseNum subj p.2).map fun num =>
    (subj ++ ' ' :: num, (findGrade p.2).getD (sem_abbr p.1))

/-- All course entries of a transcript for a subject, in document order. -/
def courseEntries (subj t : List Char) : List (List Char × List Char) :=
  (semesterLines subj (pairUp ((semSplit t).drop 1))).filterMap (lineEntry subj)

/-- A cell of the student record: a string, an int, or a float; missing
values (`np.nan`) are `none` at the `Option Cell` layer. -/
inductive Cell where
  | s : List Char → Cell
  | n : Nat → Cell
  | q : ℚ → Cell
deriving DecidableEq

/-- A student record row: a Python dict from column name to a cell, where a
stored `none` is `np.nan` (the un-graded GPA). -/
abbrev Row := List (List Char × Option Cell)

/-- Attempt of `"Address : (.*)\n (.*)\n (.*)\n"` right after an occurrence
of the `Address : ` label: three newline-terminated captures, the second and
third preceded by a literal space. -/
def matchAddressAt (a : List Char) : Option (List Char × List Char × List Char) :=
  match findOcc ['\n'] a with
  | none => none
  | some (a₁, r₁) =>
    match r₁ with
    | ' ' :: r₁x =>
      match findOcc ['\n'] r₁x with
      | none => none
      | some (a₂, r₂) =>
        match r₂ with
        | ' ' :: r₂x =>
          match findOcc ['\n'] r₂x with
          | none => none
          | some (a₃, _) => some (a₁, a₂, a₃)
        | _ => none
    | _ => none

/-- Fuelled scan over the occurrences of `Address : ` for the first full
address match (`re.findall` scans on after a failed attempt; the label cannot
overlap itself, so the next occurrence lies in the remainder). -/
def findAddressF : Nat → List Char → Option (List Char × List Char × List Char)
  | 0, _ => none
  | fuel + 1, text =>
    match findOcc "Address : ".data text with
    | none => none
    | some (_, a) =>
      match matchAddressAt a with
      | some r => some r
      | none => findAddressF fuel a

/-- First match of the 3-line address pattern, if any. -/
def findAddress (t : List Char) : Option (List Char × List Char × List Char) :=
  findAddressF (t.length + 1) t

/-- `personal_info` (transcripts.py:189): the first `Name`, `Student ID` and
`Sex` captures (an `IndexError` if any `findall` comes back empty), and the
optional 3-line address defaulting to empty strings. -/
def personal_info (t : List Char) : Except PyErr Row :=
  match findLabelFirst "Name : ".data t, findLabelFirst "Student ID: ".data t,
      findLabelFirst "Sex : ".data t with
  | some name, some sid, some sex =>
    match findAddress t with
    | some (a₁, a₂, a₃) =>
      Except.ok [("Name".data, some (Cell.s name)),
        ("Student_ID".data, some (Cell.s sid)),
        ("Sex".data, some (Cell.s sex)),
        ("Address1".data, some (Cell.s a₁)),
        ("Address2".data, some (Cell.s a₂)),
        ("Address3".data, some (Cell.s a₃))]
    | none =>
      Except.ok [("Name".data, some (Cell.s name)),
        ("Student_ID".data, some (Cell.s sid)),
        ("Sex".data, some (Cell.s sex)),
        ("Address1".data, some (Cell.s [])),
        ("Address2".data, some (Cell.s [])),
        ("Address3".data, some (Cell.s []))]
  | _, _, _ => Except.error PyErr.index

/-- The configured subject prefixes (transcripts.py:40). -/
def SUBJECTS : List (List Char) := ["MTH".data, "PHY".data]

/-- The configured current-semester marker (transcripts.py:39). -/
def CURR_SEM : List Char := "S22".data

/-- The configured per-subject exclusion sets (transcripts.py:43). -/
def IGNORE_COURSES (subj : List Char) : List (List Char) :=
  if subj = "MTH".data then
    ["MTH 1".data, "MTH 3".data, "MTH 4".data, "MTH 5".data, "MTH 6".data,
     "MTH 15".data, "MTH 16".data, "MTH 19".data, "MTH 90".data]
  else if subj = "PHY".data then ["PHY 3".data, "PHY 4".data]
  else []

/-- A subject-grades mapping as record cells (`data_dict.update(subj_grades)`). -/
def gradeCells (gd : GradesDict) : Row := gd.map fun p => (p.1, some (Cell.s p.2))

/-- A subject summary as record cells (`data_dict.update(subj_summary(...))`);
the source exports the taken count as an int, the credit total as a float,
the GPA as a float or `np.nan`, and the in-progress count as an int. -/
def summCells (subj : List Char) (s : SubjSumm) : Row :=
  [("Num ".data ++ subj ++ "^ courses".data, some (Cell.n s.num_taken)),
   ("Num ".data ++ subj ++ "^ creds".data, some (Cell.q s.creds_taken)),
   (subj ++ "^ GPA".data, s.gpa.map Cell.q),
   ("Num ".data ++ subj ++ "^ now".data, some (Cell.n s.num_in_progress))]

/-- One iteration of the per-subject loop of `transcript_data`
(transcripts.py:137-140): extract the subject grades (mutating the shared
credit table), fold them and the subject summary into the record. -/
def studentSubjStep (t : List Char) (st : Row × CredTable) (subj : List Char) :
    Except PyErr (Row × CredTable) :=
  match grades_of_subj subj t st.2 with
  | Except.error e => Except.error e
  | Except.ok (sg, creds₂) =>
    match subj_summary (IGNORE_COURSES subj) CURR_SEM sg creds₂ with
    | none => Except.error PyErr.key
    | some summ =>
      Except.ok (dupdate (dupdate st.1 (gradeCells sg)) (summCells subj summ), creds₂)

/-- One student's record: personal info then the per-subject loop. -/
def studentRecord (t : List Char) (creds : CredTable) : Except PyErr (Row × CredTable) :=
  match personal_info t with
  | Except.error e => Except.error e
  | Except.ok pi => SUBJECTS.foldlM (studentSubjStep t) (pi, creds)

/-- The three exported per-subject summary columns (transcripts.py:145);
the credit total is computed but not exported. -/
def summCols (subj : List Char) : List (List Char) :=
  ["Num ".data ++ subj ++ "^ courses".data, subj ++ "^ GPA".data,
   "Num ".data ++ subj ++ "^ now".data]

/-- The fixed identity columns of the result table (transcripts.py:150). -/
def fixedCols : List (List Char) :=
  ["Name".data, "Student_ID".data, "Plan".data, "Sex".data, "Address1".data,
   "Address2".data, "Address3".data]

/-- A token of a natural-sort key: a (possibly empty) non-digit run or the
value of a digit run. -/
inductive NatTok where
  | str : List Char → NatTok
  | num : Nat → NatTok
deriving DecidableEq

/-- Maximal run of leading non-digits. -/
def takeNonDigits : List Char → (List Char × List Char)
  | [] => ([], [])
  | c :: rest =>
    if isDigit09 c then ([], c :: rest)
    else
      let p := takeNonDigits rest
      (c :: p.1, p.2)

/-- Decimal value of a digit run. -/
def digitsToNat (l : List Char) : Nat :=
  l.foldl (fun acc c => acc * 10 + digitVal c) 0

/-- Fuelled tokenizer of `natsort`'s default key: alternate non-digit runs
(as strings) and digit runs (as numbers), starting with a possibly empty
string so keys stay comparable. -/
def natKeyF : Nat → List Char → List NatTok
  | 0, _ => []
  | fuel + 1, s =>
    match takeNonDigits s with
    | (nd, []) => [NatTok.str nd]
    | (nd, rest) =>
      match takeDigits rest with
      | (ds, rest₂) => NatTok.str nd :: NatTok.num (digitsToNat ds) :: natKeyF fuel rest₂

/-- Natural-sort key of a course name. -/
def natKey (s : List Char) : List NatTok := natKeyF (s.length + 1) s

/-- Python string comparison: lexicographic by code point. -/
def strLT : List Char → List Char → Bool
  | [], [] => false
  | [], _ :: _ => true
  | _ :: _, [] => false
  | a :: as₂, b :: bs => if a = b then strLT as₂ bs else decide (a.toNat < b.toNat)

/-- Comparison of key tokens (numbers order before strings, as in `natsort`;
alternating keys never actually compare across kinds). -/
def tokLT : NatTok → NatTok → Bool
  | NatTok.str a, NatTok.str b => strLT a b
  | NatTok.num a, NatTok.num b => decide (a < b)
  | NatTok.str _, NatTok.num _ => false
  | NatTok.num _, NatTok.str _ => true

/-- Tuple comparison of natural-sort keys. -/
def keyLT : List NatTok → List NatTok → Bool
  | [], [] => false
  | [], _ :: _ => true
  | _ :: _, [] => false
  | a :: as₂, b :: bs =>
    if tokLT a b then true else if tokLT b a then false else keyLT as₂ bs

/-- `natsort`'s strict order on course names. -/
def natLT (a b : List Char) : Bool := keyLT (natKey a) (natKey b)

/-- Stable insertion into a sorted list (equal keys keep first-come order,
matching Python's stable sort). -/
def insortBy (x : List Char) : List (List Char) → List (List Char)
  | [] => [x]
  | y :: ys => if natLT x y then x :: y :: ys else y :: insortBy x ys

/-- `natsorted` over the credit table's keys. -/
def natsorted (l : List (List Char)) : List (List Char) :=
  l.foldl (fun acc x => insortBy x acc) []

/-- Project a record onto the column schema, as `pd.DataFrame(records_list,
columns=...)` does: a missing key renders as `np.nan` (`none`), the same
missing value an un-graded GPA stores. -/
def projectRow (cols : List (List Char)) (row : Row) : List (Option Cell) :=
  cols.map fun c => (dlookup c row).join

/-- One iteration of the per-transcript loop of `transcript_data`
(transcripts.py:135-141): build the student's record, append it. -/
def studentFold (st : List Row × CredTable) (t : List Char) :
    Except PyErr (List Row × CredTable) :=
  match studentRecord t st.2 with
  | Except.error e => Except.error e
  | Except.ok (r, c) => Except.ok (st.1 ++ [r], c)

/-- The full column schema of the result table. -/
def tableCols (creds : CredTable) : List (List Char) :=
  fixedCols ++ flatJoin (SUBJECTS.map summCols) ++ natsorted (creds.map Prod.fst)

/-- `transcript_data` (transcripts.py:125): fold `personal_info`, the
per-subject grades and summaries of each transcript into record rows, then
project them onto the column schema — identity columns, per-subject summary
columns, and the naturally sorted course keys of the shared credit table.
The credit-table state is threaded explicitly: Python's `creds=dict()`
default argument is a single dict created once at function definition, so
the state a call leaves behind is the state the next defaulted call sees. -/
def transcript_data (transcripts : List (List Char)) (creds : CredTable) :
    Except PyErr ((List (List Char) × List (List (Option Cell))) × CredTable) :=
  match transcripts.foldlM studentFold (([], creds) : List Row × CredTable) with
  | Except.error e => Except.error e
  | Except.ok (rows, creds₂) =>
    Except.ok ((tableCols creds₂, rows.map (projectRow (tableCols creds₂))), creds₂)

theorem qAdd_eq (a b : ℚ) : qAdd a b = a + b := by
  rw [Rat.add_def, Rat.normalize_eq_mkRat]
  rfl

theorem qMul_eq (a b : ℚ) : qMul a b = a * b := (Rat.mul_eq_mkRat a b).symm

theorem qDiv_eq (a b : ℚ) : qDiv a b = a / b := (Rat.div_def' a b).symm

theorem qSum_eq : ∀ l : List ℚ, qSum l = l.sum := by
  intro l
  induction l with
  | nil => simp [qSum]
  | cons x xs ih => rw [List.sum_cons, qSum, qAdd_eq, ih]

theorem splitOnF_length_eq (sep : List Char) :
    ∀ (fuel : Nat) (text : List Char),
      (splitOnF sep fuel text).length = countOccF sep fuel text + 1 := by
  intro fuel
  induction fuel with
  | zero => intro text; simp [splitOnF, countOccF]
  | succ n ih =>
    intro text
    simp only [splitOnF, countOccF]
    cases h : findOcc sep text with
    | none => simp
    | some p => simp [ih p.2]

theorem findOcc_nil_of_ne (sep : List Char) (hne : sep ≠ []) :
    findOcc sep [] = none := by
  cases sep with
  | nil => exact absurd rfl hne
  | cons c cs => simp [findOcc, List.isPrefixOf]

theorem findOcc_decomp (sep : List Char) :
    ∀ text b a, findOcc sep text = some (b, a) → text = b ++ sep ++ a := by
  intro text
  induction text with
  | nil =>
    intro b a h
    cases hsep : sep with
    | nil =>
      rw [hsep] at h
      simp [findOcc, List.isPrefixOf] at h
      simp [hsep, h.1, h.2]
    | cons c cs =>
      rw [hsep] at h
      simp [findOcc, List.isPrefixOf] at h
  | cons c rest ih =>
    intro b a h
    simp only [findOcc] at h
    split at h
    · rename_i hpre
      simp only [Option.some.injEq, Prod.mk.injEq] at h
      obtain ⟨hb, ha⟩ := h
      obtain ⟨t, ht⟩ := List.isPrefixOf_iff_prefix.mp hpre
      subst hb
      rw [← ha, ← ht]
      simp
    · cases hfo : findOcc sep rest with
      | none => rw [hfo] at h; simp at h
      | some p =>
        rw [hfo] at h
        simp only [Option.map_some', Option.some.injEq, Prod.mk.injEq] at h
        obtain ⟨hb, ha⟩ := h
        have := ih p.1 p.2 (by rw [hfo])
        rw [← hb, ← ha]
        simp [this]

theorem findOcc_none_of_prefix_dropped (sep : List Char)
    (hne : sep ≠ []) :
    ∀ text b a, findOcc sep text = some (b, a) → findOcc sep b = none := by
  intro text
  induction text with
  | nil =>
    intro b a h
    cases hsep : sep with
    | nil => exact absurd hsep hne
    | cons c cs =>
      rw [hsep] at h
      simp [findOcc, List.isPrefixOf] at h
  | cons c rest ih =>
    intro b a h
    simp only [findOcc] at h
    split at h
    · simp only [Option.some.injEq, Prod.mk.injEq] at h
      rw [← h.1]
      exact findOcc_nil_of_ne sep hne
    · rename_i hpre
      cases hfo : findOcc sep rest with
      | none => rw [hfo] at h; simp at h
      | some p =>
        rw [hfo] at h
        simp only [Option.map_some', Option.some.injEq, Prod.mk.injEq] at h
        obtain ⟨hb, ha⟩ := h
        rw [← hb]
        have hrec := ih p.1 p.2 (by rw [hfo])
        have hdec := findOcc_decomp sep rest p.1 p.2 (by rw [hfo])
        simp only [findOcc]
        rw [if_neg ?_]
        · rw [hrec]; rfl
        · intro hcontra
          apply hpre
          have h1 : sep <+: (c :: p.1) := List.isPrefixOf_iff_prefix.mp hcontra
          have h2 : (c :: p.1) <+: (c :: rest) := by
            refine ⟨sep ++ p.2, ?_⟩
            rw [hdec]; simp
          exact List.isPrefixOf_iff_prefix.mpr (h1.trans h2)

theorem splitOnF_head_decomp (sep : List Char) (hne : sep ≠ []) :
    ∀ (fuel : Nat) (text : List Char), text.length < fuel →
      ∃ h tl, splitOnF sep fuel text = h :: tl ∧ findOcc sep h = none ∧
        h ++ flatJoin (tl.map fun t => sep ++ t) = text := by
  intro fuel
  induction fuel with
  | zero => intro text hlt; exact absurd hlt (by omega)
  | succ n ih =>
    intro text hlt
    simp only [splitOnF]
    cases hfo : findOcc sep text with
    | none => exact ⟨text, [], rfl, hfo, by simp [flatJoin]⟩
    | some p =>
      obtain ⟨b, a⟩ := p
      have hdec := findOcc_decomp sep text b a hfo
      have hlen : a.length < n := by
        have : text.length = b.length + sep.length + a.length := by
          rw [hdec]; simp; omega
        have hsep : 1 ≤ sep.length := by
          cases sep with
          | nil => exact absurd rfl hne
          | cons c cs => simp
        omega
      obtain ⟨h2, tl2, heq2, hnone2, hrec2⟩ := ih a hlen
      refine ⟨b, h2 :: tl2, by simp [heq2], findOcc_none_of_prefix_dropped sep hne text b a hfo, ?_⟩
      simp only [List.map_cons, flatJoin]
      rw [hdec]
      simp [hrec2]

/-- C9: `separate_students` returns one block per occurrence of the delimiter
(default `"Name : "`), each block begins with the delimiter, the preamble
before the first delimiter occurrence is discarded (the blocks reconstruct the
text from the first occurrence onwards), and zero occurrences yield the empty
sequence. -/
theorem separate_students_blocks (sep text : List Char) (hne : sep ≠ []) :
    (separate_students text sep).length = countOcc sep text ∧
    (∀ b ∈ separate_students text sep, sep.isPrefixOf b = true) ∧
    (∃ pre, findOcc sep pre = none ∧
      pre ++ flatJoin (separate_students text sep) = text) ∧
    (countOcc sep text = 0 → separate_students text sep = []) := by
  obtain ⟨h, tl, heq, hnone, hrec⟩ :=
    splitOnF_head_decomp sep hne (text.length + 1) text (by omega)
  have hlen := splitOnF_length_eq sep (text.length + 1) text
  rw [heq] at hlen
  simp only [List.length_cons] at hlen
  have hcount : tl.length = countOcc sep text := by
    have h2 : tl.length = countOccF sep (text.length + 1) text := by omega
    exact h2
  have hblocks : separate_students text sep = tl.map fun t => sep ++ t := by
    unfold separate_students splitOnL
    rw [heq]
    simp
  refine ⟨?_, ?_, ?_, ?_⟩
  · rw [hblocks]
    simp only [List.length_map]
    exact hcount
  · intro b hb
    rw [hblocks] at hb
    simp only [List.mem_map] at hb
    obtain ⟨t, _, hbt⟩ := hb
    exact List.isPrefixOf_iff_prefix.mpr ⟨t, hbt⟩
  · exact ⟨h, hnone, by rw [hblocks]; exact hrec⟩
  · intro hzero
    rw [hblocks]
    have : tl.length = 0 := hcount.trans hzero
    simp [List.length_eq_zero.mp this]

/-- Witness for C9 on a concrete two-student text with the default delimiter. -/
theorem separate_students_blocks_witness :
    (separate_students "junk Name : Al\nName : Bo\n".data "Name : ".data).length = 2 :=
  (separate_students_blocks "Name : ".data "junk Name : Al\nName : Bo\n".data
    (by decide)).1.trans (by decide)

theorem dlookup_dinsert {α : Type} (k k₂ : List Char) (v : α) :
    ∀ d : List (List Char × α),
      dlookup k (dinsert k₂ v d) = if k₂ = k then some v else dlookup k d := by
  intro d
  induction d with
  | nil => simp [dinsert, dlookup]
  | cons p rest ih =>
    obtain ⟨k₃, v₃⟩ := p
    simp only [dinsert]
    by_cases h32 : k₃ = k₂
    · rw [if_pos h32]
      subst h32
      by_cases h3k : k₃ = k
      · simp [dlookup, h3k]
      · simp [dlookup, h3k]
    · rw [if_neg h32]
      by_cases h3k : k₃ = k
      · have hk2 : k₂ ≠ k := by rw [← h3k]; exact fun hh => h32 hh.symm
        simp [dlookup, h3k, hk2]
      · simp [dlookup, h3k, ih]

theorem dlookup_mem {α : Type} (k : List Char) (v : α) :
    ∀ d : List (List Char × α), dlookup k d = some v → (k, v) ∈ d := by
  intro d
  induction d with
  | nil => intro h; simp [dlookup] at h
  | cons p rest ih =>
    intro h
    obtain ⟨k₂, v₂⟩ := p
    simp only [dlookup] at h
    split at h
    · rename_i heq
      simp only [Option.some.injEq] at h
      simp [heq, h]
    · exact List.mem_cons_of_mem _ (ih h)

theorem dlookup_mem_keys {α : Type} (k : List Char) (v : α)
    (d : List (List Char × α)) (h : dlookup k d = some v) : k ∈ d.map Prod.fst := by
  have := dlookup_mem k v d h
  exact List.mem_map.mpr ⟨(k, v), this, rfl⟩

theorem semSplitF_ne_nil : ∀ (fuel : Nat) (text : List Char), semSplitF fuel text ≠ [] := by
  intro fuel text
  match fuel with
  | 0 => simp [semSplitF]
  | n + 1 =>
    simp only [semSplitF]
    cases matchSemHeader text with
    | some p => simp
    | none =>
      cases text with
      | nil => simp
      | cons c rest =>
        cases h : semSplitF n rest with
        | nil => simp [consHead, h]
        | cons x xs => simp [consHead, h]

theorem consHead_length_of_ne_nil (c : Char) (l : List (List Char)) (h : l ≠ []) :
    (consHead c l).length = l.length := by
  cases l with
  | nil => exact absurd rfl h
  | cons x xs => simp [consHead]

theorem semSplitF_length_odd :
    ∀ (fuel : Nat) (text : List Char), (semSplitF fuel text).length % 2 = 1 := by
  intro fuel
  induction fuel with
  | zero => intro text; simp [semSplitF]
  | succ n ih =>
    intro text
    simp only [semSplitF]
    cases matchSemHeader text with
    | some p =>
      obtain ⟨hdr, rest⟩ := p
      simp only [List.length_cons]
      have := ih rest
      omega
    | none =>
      cases text with
      | nil => simp
      | cons c rest =>
        rw [consHead_length_of_ne_nil c _ (semSplitF_ne_nil n rest)]
        exact ih rest

theorem semSplitF_of_noHeader :
    ∀ (fuel : Nat) (text : List Char),
      (∀ i, matchSemHeader (text.drop i) = none) → semSplitF fuel text = [text] := by
  intro fuel
  induction fuel with
  | zero => intro text _; rfl
  | succ n ih =>
    intro text hnone
    have h0 := hnone 0
    simp only [List.drop_zero] at h0
    cases text with
    | nil => simp [semSplitF, h0]
    | cons c rest =>
      have hrest : ∀ i, matchSemHeader (rest.drop i) = none := by
        intro i
        have := hnone (i + 1)
        simpa using this
      simp [semSplitF, h0, ih rest hrest, consHead]

theorem foldlM_processLine_no_structural (subj : List Char) :
    ∀ (lines : List (List Char × List Char)) (st : GradesDict × CredTable),
      lines.foldlM (processLine subj) st ≠ Except.error PyErr.structural := by
  intro lines
  induction lines with
  | nil => intro st h; exact Except.noConfusion h
  | cons p rest ih =>
    intro st h
    rw [List.foldlM_cons] at h
    cases hp : processLine subj st p with
    | error e =>
      rw [hp] at h
      have herr : e = PyErr.index := by
        unfold processLine at hp
        split at hp
        · exact (Except.error.inj hp).symm
        · split at hp
          · exact (Except.error.inj hp).symm
          · exact Except.noConfusion hp
      have hes : e = PyErr.structural := Except.error.inj h
      rw [herr] at hes
      exact PyErr.noConfusion hes
    | ok st₂ =>
      rw [hp] at h
      exact ih st₂ h

/-- C4: the semester split always has odd length (a block with no semester
header splits into the single segment `[t]`), so the structural-error branch
of `grades_of_subj` ("Splitting by semesters went wrong.") is unreachable. -/
theorem semSplit_odd (t : List Char) :
    (semSplit t).length % 2 = 1 ∧
    ((∀ i ≤ t.length, matchSemHeader (t.drop i) = none) → semSplit t = [t]) ∧
    (∀ subj creds, grades_of_subj subj t creds ≠ Except.error PyErr.structural) := by
  refine ⟨semSplitF_length_odd _ t, ?_, ?_⟩
  · intro hbdd
    apply semSplitF_of_noHeader
    intro i
    by_cases hi : i ≤ t.length
    · exact hbdd i hi
    · have hdrop : t.drop i = [] := List.drop_eq_nil_of_le (by omega)
      have hlen : t.drop t.length = [] := List.drop_length t
      have := hbdd t.length le_rfl
      rw [hlen] at this
      rw [hdrop]
      exact this
  · intro subj creds h
    unfold grades_of_subj at h
    have hodd : (semSplit t).length % 2 = 1 := semSplitF_length_odd _ t
    rw [if_neg (by omega)] at h
    exact foldlM_processLine_no_structural subj _ _ h

/-- Witness for C4 on a concrete header-free block. -/
theorem semSplit_odd_witness :
    semSplit "no headers here\n".data = ["no headers here\n".data] :=
  (semSplit_odd "no headers here\n".data).2.1 (by decide)

theorem processLine_ok (subj : List Char) (st st₂ : GradesDict × CredTable)
    (p : List Char × List Char) (h : processLine subj st p = Except.ok st₂) :
    ∃ num, findCourseNum subj p.2 = some num ∧
      st₂.1 = dinsert (subj ++ ' ' :: num) ((findGrade p.2).getD (sem_abbr p.1)) st.1 ∧
      ((dlookup (subj ++ ' ' :: num) st.2).isSome = true ∧ st₂.2 = st.2 ∨
        dlookup (subj ++ ' ' :: num) st.2 = none ∧
          ∃ v, findFirstCred p.2 = some v ∧
            st₂.2 = dinsert (subj ++ ' ' :: num) v st.2) := by
  unfold processLine at h
  split at h
  · exact Except.noConfusion h
  · rename_i num hnum
    refine ⟨num, hnum, ?_⟩
    by_cases hl : (dlookup (subj ++ ' ' :: num) st.2).isSome = true
    · rw [if_pos hl] at h
      have h2 := Except.ok.inj h
      exact ⟨by rw [← h2], Or.inl ⟨hl, by rw [← h2]⟩⟩
    · rw [if_neg hl] at h
      have hnone : dlookup (subj ++ ' ' :: num) st.2 = none :=
        Option.not_isSome_iff_eq_none.mp (by simpa using hl)
      cases hc : findFirstCred p.2 with
      | none => rw [hc] at h; exact Except.noConfusion h
      | some v =>
        rw [hc] at h
        have h2 := Except.ok.inj h
        exact ⟨by rw [← h2], Or.inr ⟨hnone, v, rfl, by rw [← h2]⟩⟩

theorem processLine_preserves_creds (subj : List Char) (st st₂ : GradesDict × CredTable)
    (p : List Char × List Char) (k : List Char) (v : ℚ)
    (h : processLine subj st p = Except.ok st₂) (hv : dlookup k st.2 = some v) :
    dlookup k st₂.2 = some v := by
  obtain ⟨num, _, _, hcase⟩ := processLine_ok subj st st₂ p h
  rcases hcase with ⟨_, heq⟩ | ⟨hnone, w, _, heq⟩
  · rw [heq]; exact hv
  · rw [heq, dlookup_dinsert]
    rw [if_neg ?_]
    · exact hv
    · intro hck
      rw [hck] at hnone
      rw [hnone] at hv
      exact Option.noConfusion hv

theorem foldlM_processLine_preserves_creds (subj : List Char) :
    ∀ (lines : List (List Char × List Char)) (st st₂ : GradesDict × CredTable)
      (k : List Char) (v : ℚ),
      lines.foldlM (processLine subj) st = Except.ok st₂ →
      dlookup k st.2 = some v → dlookup k st₂.2 = some v := by
  intro lines
  induction lines with
  | nil =>
    intro st st₂ k v h hv
    have : st = st₂ := Except.ok.inj h
    rw [← this]; exact hv
  | cons p rest ih =>
    intro st st₂ k v h hv
    rw [List.foldlM_cons] at h
    cases hp : processLine subj st p with
    | error e => rw [hp] at h; exact Except.noConfusion h
    | ok st₁ =>
      rw [hp] at h
      exact ih st₁ st₂ k v h (processLine_preserves_creds subj st st₁ p k v hp hv)

theorem grades_of_subj_preserves_creds (subj t : List Char) (creds : CredTable)
    (gd : GradesDict) (creds₂ : CredTable) (k : List Char) (v : ℚ)
    (h : grades_of_subj subj t creds = Except.ok (gd, creds₂))
    (hv : dlookup k creds = some v) : dlookup k creds₂ = some v := by
  unfold grades_of_subj at h
  have hodd : (semSplit t).length % 2 = 1 := semSplitF_length_odd _ t
  rw [if_neg (by omega)] at h
  exact foldlM_processLine_preserves_creds subj _ _ (gd, creds₂) k v h hv

theorem foldlM_processLine_lookup (subj : List Char) :
    ∀ (lines : List (List Char × List Char)) (st st₂ : GradesDict × CredTable),
      lines.foldlM (processLine subj) st = Except.ok st₂ →
      ∀ k, dlookup k st₂.1 =
        match ((lines.filterMap (lineEntry subj)).filter
            fun e => decide (e.1 = k)).getLast? with
        | some e => some e.2
        | none => dlookup k st.1 := by
  intro lines
  induction lines with
  | nil =>
    intro st st₂ h k
    have hst : st = st₂ := Except.ok.inj h
    subst hst
    simp
  | cons p rest ih =>
    intro st st₂ h k
    rw [List.foldlM_cons] at h
    cases hp : processLine subj st p with
    | error e => rw [hp] at h; exact Except.noConfusion h
    | ok st₁ =>
      rw [hp] at h
      obtain ⟨num, hnum, hgd, _⟩ := processLine_ok subj st st₁ p hp
      have hentry : lineEntry subj p =
          some (subj ++ ' ' :: num, (findGrade p.2).getD (sem_abbr p.1)) := by
        unfold lineEntry
        rw [hnum]
        rfl
      have hfm : (p :: rest).filterMap (lineEntry subj) =
          (subj ++ ' ' :: num, (findGrade p.2).getD (sem_abbr p.1)) ::
            rest.filterMap (lineEntry subj) := by
        rw [List.filterMap_cons, hentry]
      rw [hfm]
      have hih := ih st₁ st₂ h k
      by_cases hck : subj ++ ' ' :: num = k
      · rw [List.filter_cons, if_pos (by simp [hck])]
        cases hfr : (rest.filterMap (lineEntry subj)).filter
            (fun e => decide (e.1 = k)) with
        | nil =>
          rw [hfr] at hih
          simp only [List.getLast?_nil] at hih
          simp only [List.getLast?_singleton]
          rw [hih, hgd, dlookup_dinsert, if_pos hck]
        | cons e es =>
          rw [hfr] at hih
          rw [List.getLast?_cons_cons]
          obtain ⟨x, hx⟩ : ∃ x, (e :: es).getLast? = some x :=
            Option.isSome_iff_exists.mp (by simp [List.getLast?_isSome])
          rw [hx] at hih ⊢
          exact hih
      · rw [List.filter_cons, if_neg (by simp [hck])]
        cases hfr : (rest.filterMap (lineEntry subj)).filter
            (fun e => decide (e.1 = k)) with
        | nil =>
          rw [hfr] at hih
          simp only [List.getLast?_nil] at hih ⊢
          rw [hih, hgd, dlookup_dinsert, if_neg hck]
        | cons e es =>
          rw [hfr] at hih
          obtain ⟨x, hx⟩ : ∃ x, (e :: es).getLast? = some x :=
            Option.isSome_iff_exists.mp (by simp [List.getLast?_isSome])
          rw [hx] at hih ⊢
          exact hih

/-- C3: if a course key matches several lines of a transcript, the mapping
`grades_of_subj` returns binds the key to the value of the key's last
occurrence in document order (semesters in order, lines in order within each
semester) — last-write-wins across the whole transcript. -/
theorem grades_of_subj_last_write (subj t : List Char) (creds : CredTable)
    (gd : GradesDict) (creds₂ : CredTable) (course : List Char)
    (e : List Char × List Char)
    (hok : grades_of_subj subj t creds = Except.ok (gd, creds₂))
    (hlast : ((courseEntries subj t).filter
      fun x => decide (x.1 = course)).getLast? = some e) :
    dlookup course gd = some e.2 := by
  unfold grades_of_subj at hok
  have hodd : (semSplit t).length % 2 = 1 := semSplitF_length_odd _ t
  rw [if_neg (by omega)] at hok
  have hfold := foldlM_processLine_lookup subj _ _ _ hok course
  unfold courseEntries at hlast
  rw [hlast] at hfold
  exact hfold

theorem studentSubjStep_preserves_creds (t : List Char) (st st₂ : Row × CredTable)
    (subj k : List Char) (v : ℚ)
    (h : studentSubjStep t st subj = Except.ok st₂)
    (hv : dlookup k st.2 = some v) : dlookup k st₂.2 = some v := by
  unfold studentSubjStep at h
  split at h
  · exact Except.noConfusion h
  · rename_i sg creds₂ hg
    split at h
    · exact Except.noConfusion h
    · have h2 := Except.ok.inj h
      rw [← h2]
      exact grades_of_subj_preserves_creds subj t st.2 sg creds₂ k v hg hv

theorem foldlM_studentSubjStep_preserves_creds (t : List Char) :
    ∀ (subjects : List (List Char)) (st st₂ : Row × CredTable) (k : List Char) (v : ℚ),
      subjects.foldlM (studentSubjStep t) st = Except.ok st₂ →
      dlookup k st.2 = some v → dlookup k st₂.2 = some v := by
  intro subjects
  induction subjects with
  | nil =>
    intro st st₂ k v h hv
    have : st = st₂ := Except.ok.inj h
    rw [← this]; exact hv
  | cons s rest ih =>
    intro st st₂ k v h hv
    rw [List.foldlM_cons] at h
    cases hs : studentSubjStep t st s with
    | error e => rw [hs] at h; exact Except.noConfusion h
    | ok st₁ =>
      rw [hs] at h
      exact ih st₁ st₂ k v h (studentSubjStep_preserves_creds t st st₁ s k v hs hv)

theorem studentRecord_preserves_creds (t : List Char) (creds : CredTable)
    (r : Row) (creds₂ : CredTable) (k : List Char) (v : ℚ)
    (h : studentRecord t creds = Except.ok (r, creds₂))
    (hv : dlookup k creds = some v) : dlookup k creds₂ = some v := by
  unfold studentRecord at h
  split at h
  · exact Except.noConfusion h
  · exact foldlM_studentSubjStep_preserves_creds t SUBJECTS _ (r, creds₂) k v h hv

theorem foldlM_studentFold_preserves_creds :
    ∀ (ts : List (List Char)) (st st₂ : List Row × CredTable) (k : List Char) (v : ℚ),
      ts.foldlM studentFold st = Except.ok st₂ →
      dlookup k st.2 = some v → dlookup k st₂.2 = some v := by
  intro ts
  induction ts with
  | nil =>
    intro st st₂ k v h hv
    have : st = st₂ := Except.ok.inj h
    rw [← this]; exact hv
  | cons t rest ih =>
    intro st st₂ k v h hv
    rw [List.foldlM_cons] at h
    cases hs : studentFold st t with
    | error e => rw [hs] at h; exact Except.noConfusion h
    | ok st₁ =>
      rw [hs] at h
      refine ih st₁ st₂ k v h ?_
      unfold studentFold at hs
      split at hs
      · exact Except.noConfusion hs
      · rename_i r c hr
        have h2 := Except.ok.inj hs
        rw [← h2]
        exact studentRecord_preserves_creds t st.2 r c k v hr hv

theorem transcript_data_preserves_creds (ts : List (List Char)) (creds : CredTable)
    (tbl : List (List Char) × List (List (Option Cell))) (creds₂ : CredTable)
    (k : List Char) (v : ℚ)
    (h : transcript_data ts creds = Except.ok (tbl, creds₂))
    (hv : dlookup k creds = some v) : dlookup k creds₂ = some v := by
  unfold transcript_data at h
  split at h
  · exact Except.noConfusion h
  · rename_i rows c₂ hf
    have h2 := Except.ok.inj h
    injection h2 with h3 h4
    rw [← h4]
    exact foldlM_studentFold_preserves_creds ts ([], creds) (rows, c₂) k v hf hv

/-- C2: the shared credit table is first-seen-wins — a course key bound in
the incoming table keeps its value through `grades_of_subj` (so no later
line of the same student changes it) and through a whole `transcript_data`
run over any sequence of subsequent students. -/
theorem credtable_first_seen_wins :
    (∀ subj t creds gd creds₂ c v, dlookup c creds = some v →
      grades_of_subj subj t creds = Except.ok (gd, creds₂) →
      dlookup c creds₂ = some v) ∧
    (∀ ts creds tbl creds₂ c v, dlookup c creds = some v →
      transcript_data ts creds = Except.ok (tbl, creds₂) →
      dlookup c creds₂ = some v) :=
  ⟨fun subj t creds gd creds₂ c v hv h =>
    grades_of_subj_preserves_creds subj t creds gd creds₂ c v h hv,
   fun ts creds tbl creds₂ c v hv h =>
    transcript_data_preserves_creds ts creds tbl creds₂ c v h hv⟩

/-- Witness for C2: student 1 fixed `MTH 9` at credit 4.00; a later student's
line stating credit 3.00 for `MTH 9` does not change the table. -/
theorem credtable_first_seen_wins_witness :
    dlookup "MTH 9".data [("MTH 9".data, (4 : ℚ)), ("MTH 8".data, 3)] = some 4 :=
  credtable_first_seen_wins.2
    ["Name : Bob B\nStudent ID: 2\nSex : M\nFall 2019\nMTH 9 X 3.00 3.00 B \nMTH 8 X 3.00\n".data]
    [("MTH 9".data, 4)]
    (tableCols [("MTH 9".data, 4), ("MTH 8".data, 3)],
      [projectRow (tableCols [("MTH 9".data, 4), ("MTH 8".data, 3)])
        [("Name".data, some (Cell.s "Bob B".data)),
         ("Student_ID".data, some (Cell.s "2".data)),
         ("Sex".data, some (Cell.s "M".data)),
         ("Address1".data, some (Cell.s [])),
         ("Address2".data, some (Cell.s [])),
         ("Address3".data, some (Cell.s [])),
         ("MTH 9".data, some (Cell.s "B".data)),
         ("MTH 8".data, some (Cell.s "F19".data)),
         ("Num MTH^ courses".data, some (Cell.n 1)),
         ("Num MTH^ creds".data, some (Cell.q 4)),
         ("MTH^ GPA".data, some (Cell.q 3)),
         ("Num MTH^ now".data, some (Cell.n 0)),
         ("Num PHY^ courses".data, some (Cell.n 0)),
         ("Num PHY^ creds".data, some (Cell.q 0)),
         ("PHY^ GPA".data, none),
         ("Num PHY^ now".data, some (Cell.n 0))]])
    [("MTH 9".data, 4), ("MTH 8".data, 3)] "MTH 9".data 4 (by decide) (by decide)

/-- Witness for C3: a course taken in Fall 2019 and retaken (in progress) in
Spring 2020 ends bound to the later placeholder `"S20"`. -/
theorem grades_of_subj_last_write_witness :
    dlookup "MTH 9".data [("MTH 9".data, "S20".data)] = some "S20".data :=
  grades_of_subj_last_write "MTH".data
    "Fall 2019\nMTH 9 L 3.00 3.00 B \nSpring 2020\nMTH 9 L 3.00\n".data []
    [("MTH 9".data, "S20".data)] [("MTH 9".data, 3)] "MTH 9".data
    ("MTH 9".data, "S20".data) (by decide) (by decide)

theorem credsOf_sum (creds : CredTable) :
    ∀ (l : GradesDict) (cs : List ℚ), credsOf creds l = some cs →
      cs.sum = (l.map fun p => (dlookup p.1 creds).getD 0).sum := by
  intro l
  induction l with
  | nil =>
    intro cs h
    simp only [credsOf, Option.some.injEq] at h
    simp [← h]
  | cons p rest ih =>
    intro cs h
    simp only [credsOf] at h
    cases hl : dlookup p.1 creds with
    | none => rw [hl] at h; exact Option.noConfusion h
    | some v =>
      rw [hl] at h
      cases hr : credsOf creds rest with
      | none => rw [hr] at h; exact Option.noConfusion h
      | some vs =>
        rw [hr] at h
        simp only [Option.map_some', Option.some.injEq] at h
        rw [← h]
        simp [List.sum_cons, ih vs hr, hl]

theorem credsOf_mem (creds : CredTable) :
    ∀ (l : GradesDict) (cs : List ℚ), credsOf creds l = some cs →
      ∀ x ∈ cs, ∃ k, dlookup k creds = some x := by
  intro l
  induction l with
  | nil =>
    intro cs h x hx
    simp only [credsOf, Option.some.injEq] at h
    rw [← h] at hx
    simp at hx
  | cons p rest ih =>
    intro cs h x hx
    simp only [credsOf] at h
    cases hl : dlookup p.1 creds with
    | none => rw [hl] at h; exact Option.noConfusion h
    | some v =>
      rw [hl] at h
      cases hr : credsOf creds rest with
      | none => rw [hr] at h; exact Option.noConfusion h
      | some vs =>
        rw [hr] at h
        simp only [Option.map_some', Option.some.injEq] at h
        rw [← h] at hx
        rcases List.mem_cons.mp hx with hxv | hxvs
        · exact ⟨p.1, by rw [hl, hxv]⟩
        · exact ih vs hr x hxvs

theorem weightedPoints_sum (creds : CredTable) :
    ∀ (l : GradesDict) (gs : List ℚ), weightedPoints creds l = some gs →
      gs.sum = (l.map fun p =>
        (GPA_VAL p.2).getD 0 * (dlookup p.1 creds).getD 0).sum := by
  intro l
  induction l with
  | nil =>
    intro gs h
    simp only [weightedPoints, Option.some.injEq] at h
    simp [← h]
  | cons p rest ih =>
    intro gs h
    simp only [weightedPoints] at h
    cases hg : GPA_VAL p.2 with
    | none => rw [hg] at h; exact Option.noConfusion h
    | some gv =>
      cases hl : dlookup p.1 creds with
      | none => rw [hg, hl] at h; exact Option.noConfusion h
      | some cv =>
        rw [hg, hl] at h
        cases hr : weightedPoints creds rest with
        | none => rw [hr] at h; exact Option.noConfusion h
        | some vs =>
          rw [hr] at h
          simp only [Option.map_some', Option.some.injEq] at h
          rw [← h]
          simp [List.sum_cons, ih vs hr, hg, hl, qMul_eq]

/-- C1: for every subject-grade mapping, exclusion set and (nonnegative)
credit table, a successful `subj_summary` computes the gpa as the sum of
grade-point value times credit over the non-excluded letter-graded courses,
divided by the credit total over that same filtered set; and when that
credit total is 0 the gpa is the missing value `none` (`np.nan`), never 0. -/
theorem subj_summary_gpa (ignore : List (List Char)) (curr : List Char)
    (g : GradesDict) (creds : CredTable) (s : SubjSumm)
    (hpos : ∀ p ∈ creds, 0 ≤ p.2)
    (hok : subj_summary ignore curr g creds = some s) :
    s.creds_taken =
      ((countedCourses ignore g).map fun p => (dlookup p.1 creds).getD 0).sum ∧
    (s.creds_taken ≠ 0 →
      s.gpa = some (((countedCourses ignore g).map fun p =>
        (GPA_VAL p.2).getD 0 * (dlookup p.1 creds).getD 0).sum / s.creds_taken)) ∧
    (s.creds_taken = 0 → s.gpa = none) := by
  unfold subj_summary at hok
  cases hcs : credsOf creds (countedCourses ignore g) with
  | none => rw [hcs] at hok; exact Option.noConfusion hok
  | some cs =>
    rw [hcs] at hok
    cases hgs : weightedPoints creds (countedCourses ignore g) with
    | none => rw [hgs] at hok; exact Option.noConfusion hok
    | some gs =>
      rw [hgs] at hok
      simp only [Option.some.injEq] at hok
      have hct : s.creds_taken = qSum cs := by rw [← hok]
      have hgpa : s.gpa = if 0 < qSum cs then some (qDiv (qSum gs) (qSum cs)) else none := by
        rw [← hok]
      have hsum : qSum cs = cs.sum := qSum_eq cs
      have hnn : 0 ≤ cs.sum := by
        refine List.sum_nonneg ?_
        intro x hx
        obtain ⟨k, hk⟩ := credsOf_mem creds _ cs hcs x hx
        exact hpos (k, x) (dlookup_mem k x creds hk)
      refine ⟨by rw [hct, hsum]; exact credsOf_sum creds _ cs hcs, ?_, ?_⟩
      · intro hne
        have hlt : 0 < qSum cs := by
          rw [hsum]
          rcases lt_or_eq_of_le hnn with h | h
          · exact h
          · exact absurd (by rw [hct, hsum, ← h]) hne
        rw [hgpa, if_pos hlt]
        rw [qDiv_eq, qSum_eq, qSum_eq, weightedPoints_sum creds _ gs hgs,
          credsOf_sum creds _ cs hcs]
        rw [hct, hsum, credsOf_sum creds _ cs hcs]
      · intro hzero
        rw [hct, hsum] at hzero
        rw [hgpa, if_neg (by rw [hsum, hzero]; exact lt_irrefl 0)]

/-- Witness for C1 on a one-course mapping with credit 3. -/
theorem subj_summary_gpa_witness :
    subj_summary [] "S22".data [("MTH 9".data, "A".data)] [("MTH 9".data, (3 : ℚ))] =
      some ⟨1, 3, some 4, 0⟩ ∧
    (⟨1, 3, some 4, 0⟩ : SubjSumm).gpa =
      some (((countedCourses [] [("MTH 9".data, "A".data)]).map fun p =>
        (GPA_VAL p.2).getD 0 * (dlookup p.1 [("MTH 9".data, (3 : ℚ))]).getD 0).sum /
        (⟨1, 3, some 4, 0⟩ : SubjSumm).creds_taken) :=
  ⟨by decide,
   (subj_summary_gpa [] "S22".data [("MTH 9".data, "A".data)]
      [("MTH 9".data, (3 : ℚ))] ⟨1, 3, some 4, 0⟩
      (by decide) (by decide)).2.1 (by decide)⟩

/-- C8 counterexample: on the spec's own example the computed gpa is
`22.668/7 = 5667/1750 ≈ 3.238`, not `≈ 2.667` — it exceeds `2.667` by more
than one half grade point. -/
theorem gpa_example_counterexample :
    (subj_summary [] "S22".data
      [("MTH 7".data, "A".data), ("MTH 8".data, "B-".data)]
      [("MTH 7".data, (3 : ℚ)), ("MTH 8".data, 4)]).map SubjSumm.gpa =
      some (some (mkRat 5667 1750)) ∧
    mkRat 3167 1000 < mkRat 5667 1750 := by decide

/-- C8 amended: with courses {A: grade "A" credit 3.00, B: grade "B-" credit
4.00} and an empty exclusion set, the gpa is
`(4.0*3 + 2.667*4)/7 = 22.668/7 ≈ 3.238` (not `≈ 2.667`). -/
theorem gpa_example_amended :
    (subj_summary [] "S22".data
      [("MTH 7".data, "A".data), ("MTH 8".data, "B-".data)]
      [("MTH 7".data, (3 : ℚ)), ("MTH 8".data, 4)]).map SubjSumm.gpa =
      some (some ((4 * 3 + ((2667 : ℚ) / 1000) * 4) / 7)) ∧
    mkRat 3238 1000 < (4 * 3 + ((2667 : ℚ) / 1000) * 4) / 7 ∧
    (4 * 3 + ((2667 : ℚ) / 1000) * 4) / 7 < mkRat 3239 1000 := by
  have hval : ((4 : ℚ) * 3 + ((2667 : ℚ) / 1000) * 4) / 7 = mkRat 5667 1750 := by
    rw [Rat.mkRat_eq_divInt, Rat.divInt_eq_div]
    norm_num
  rw [hval]
  exact ⟨by decide, by decide, by decide⟩

theorem courseKey_ne_plan (subj num : List Char) :
    subj ++ ' ' :: num ≠ "Plan".data := by
  intro h
  have hmem : ' ' ∈ subj ++ ' ' :: num := by simp
  rw [h] at hmem
  exact absurd hmem (by decide)

theorem filter_plan_nil (subj : List Char) (lines : List (List Char × List Char)) :
    (lines.filterMap (lineEntry subj)).filter
      (fun e => decide (e.1 = "Plan".data)) = [] := by
  rw [List.filter_eq_nil_iff]
  intro e he
  obtain ⟨p, _, hep⟩ := List.mem_filterMap.mp he
  unfold lineEntry at hep
  obtain ⟨num, _, hnum⟩ := Option.map_eq_some'.mp hep
  simp only [decide_eq_true_eq]
  rw [← hnum]
  exact courseKey_ne_plan subj num

/-- C10: when the final segment of a transcript carries a `Plan : value`
line, the mapping `grades_of_subj` returns binds the literal key `"Plan"` to
that value alongside the course keys (no course key can be `"Plan"`), and
`subj_summary` iterates over that entry too: with `"Plan"` not excluded and
the plan value equal to the current-semester marker, the entry is counted as
an in-progress course. -/
theorem plan_key_in_grades (subj t : List Char) (creds : CredTable)
    (gd : GradesDict) (creds₂ : CredTable) (v : List Char)
    (hplan : findLabelFirst "Plan : ".data ((semSplit t).getLastD []) = some v)
    (hok : grades_of_subj subj t creds = Except.ok (gd, creds₂)) :
    dlookup "Plan".data gd = some v ∧
    (∀ ignore curr s, subj_summary ignore curr gd creds₂ = some s →
      "Plan".data ∉ ignore → v = curr → 1 ≤ s.num_in_progress) := by
  unfold grades_of_subj at hok
  have hodd : (semSplit t).length % 2 = 1 := semSplitF_length_odd _ t
  rw [if_neg (by omega)] at hok
  simp only [hplan] at hok
  have hlook := foldlM_processLine_lookup subj _ _ _ hok "Plan".data
  rw [filter_plan_nil] at hlook
  simp only [List.getLast?_nil] at hlook
  have hfirst : dlookup "Plan".data gd = some v := by
    rw [hlook]
    simp [dlookup]
  refine ⟨hfirst, ?_⟩
  intro ignore curr s hsum hnotin hveq
  have hmem : ("Plan".data, v) ∈ gd := dlookup_mem _ _ gd hfirst
  unfold subj_summary at hsum
  cases hcs : credsOf creds₂ (countedCourses ignore gd) with
  | none => rw [hcs] at hsum; exact Option.noConfusion hsum
  | some cs =>
    rw [hcs] at hsum
    cases hgs : weightedPoints creds₂ (countedCourses ignore gd) with
    | none => rw [hgs] at hsum; exact Option.noConfusion hsum
    | some gs =>
      rw [hgs] at hsum
      simp only [Option.some.injEq] at hsum
      have hnum : s.num_in_progress =
          (gd.filter fun p =>
            decide (p.1 ∉ ignore) && decide (p.2 = curr)).length := by
        rw [← hsum]
      rw [hnum]
      have hinf : ("Plan".data, v) ∈ gd.filter fun p =>
          decide (p.1 ∉ ignore) && decide (p.2 = curr) :=
        List.mem_filter.mpr ⟨hmem, by simp [hnotin, hveq]⟩
      have : gd.filter (fun p => decide (p.1 ∉ ignore) && decide (p.2 = curr)) ≠ [] :=
        List.ne_nil_of_mem hinf
      have := List.length_pos.mpr this
      omega

theorem gradeTail_spec (tail : List Char) :
    (gradeTail tail = [] ∨ gradeTail tail = ['+'] ∨ gradeTail tail = ['-'] ∨
      gradeTail tail = ['+', '-']) ∧
    ∃ post, tail = gradeTail tail ++ post := by
  cases tail with
  | nil => exact ⟨Or.inl rfl, [], rfl⟩
  | cons c rest =>
    by_cases hc : c = '+'
    · subst hc
      cases rest with
      | nil => simp only [gradeTail, if_pos rfl]; exact ⟨Or.inr (Or.inl rfl), [], rfl⟩
      | cons c₂ r₂ =>
        by_cases hc₂ : c₂ = '-'
        · subst hc₂
          simp only [gradeTail, if_pos rfl]
          exact ⟨Or.inr (Or.inr (Or.inr rfl)), r₂, rfl⟩
        · simp only [gradeTail, if_pos rfl, if_neg hc₂]
          exact ⟨Or.inr (Or.inl rfl), c₂ :: r₂, rfl⟩
    · by_cases hc₂ : c = '-'
      · subst hc₂
        simp only [gradeTail, if_neg hc, if_pos rfl]
        exact ⟨Or.inr (Or.inr (Or.inl rfl)), rest, rfl⟩
      · simp only [gradeTail, if_neg hc, if_neg hc₂]
        exact ⟨Or.inl trivial, c :: rest, rfl⟩

theorem findGradeF_decomp :
    ∀ (fuel : Nat) (text g : List Char), findGradeF fuel text = some g →
      ∃ pre rest, text = pre ++ rest ∧ matchGradeAt rest = some g := by
  intro fuel
  induction fuel with
  | zero => intro text g h; exact Option.noConfusion h
  | succ n ih =>
    intro text g h
    simp only [findGradeF] at h
    cases hm : matchGradeAt text with
    | some g₀ =>
      rw [hm] at h
      exact ⟨[], text, rfl, by rw [hm, Option.some.inj h]⟩
    | none =>
      rw [hm] at h
      cases text with
      | nil => exact Option.noConfusion h
      | cons c rest₂ =>
        obtain ⟨pre, rest, hsplit, hmatch⟩ := ih rest₂ g h
        exact ⟨c :: pre, rest, by rw [List.cons_append, hsplit], hmatch⟩

theorem matchGradeAt_spec (rest g : List Char) (h : matchGradeAt rest = some g) :
    ∃ a b c d e f gc tail,
      rest = a :: '.' :: b :: c :: ' ' :: d :: '.' :: e :: f :: ' ' :: gc :: tail ∧
      isDigit09 a = true ∧ isDigit09 b = true ∧ isDigit09 c = true ∧
      isDigit09 d = true ∧ isDigit09 e = true ∧ isDigit09 f = true ∧
      isUpperAZ gc = true ∧ g = gc :: gradeTail tail := by
  unfold matchGradeAt at h
  split at h
  · rename_i a b c d e f gc tail
    split at h
    · rename_i hcond
      simp only [Bool.and_eq_true] at hcond
      obtain ⟨⟨⟨⟨⟨⟨ha, hb⟩, hc⟩, hd⟩, he⟩, hf⟩, hg⟩ := hcond
      exact ⟨a, b, c, d, e, f, gc, tail, rfl, ha, hb, hc, hd, he, hf, hg,
        (Option.some.inj h).symm⟩
    · exact Option.noConfusion h
  · exact Option.noConfusion h

/-- C7 counterexample: the grade group `([A-Z]\+?\-?)` can take both
suffixes — the line `MTH 9 L 3.00 4.00 B+- x` stores the 3-character grade
`"B+-"`, so the extracted grade is not always a 1-2 character token. -/
theorem grade_token_counterexample :
    grades_of_subj "MTH".data "Fall 2019\nMTH 9 L 3.00 4.00 B+- x\n".data [] =
      Except.ok ([("MTH 9".data, "B+-".data)], [("MTH 9".data, 3)]) ∧
    ("B+-".data).length = 3 ∧ '+' ∈ "B+-".data ∧ '-' ∈ "B+-".data := by
  refine ⟨by decide, by decide, by decide, by decide⟩

/-- C7 amended: on every successfully processed course line the stored value
is the extracted grade when one exists and the abbreviated semester label
otherwise; an extracted grade is a 1-3 character token — an uppercase letter,
optionally followed by `+`, optionally followed by `-` (possibly both, in
that order) — preceded in the line by two decimal-hour tokens in sequence. -/
theorem processLine_grade (subj semLabel line : List Char)
    (st st₂ : GradesDict × CredTable)
    (hok : processLine subj st (semLabel, line) = Except.ok st₂) :
    ∃ num, findCourseNum subj line = some num ∧
      dlookup (subj ++ ' ' :: num) st₂.1 =
        some ((findGrade line).getD (sem_abbr semLabel)) ∧
      ∀ g, findGrade line = some g →
        (∃ c, isUpperAZ c = true ∧
          (g = [c] ∨ g = [c, '+'] ∨ g = [c, '-'] ∨ g = [c, '+', '-'])) ∧
        ∃ pre a b c₁ d e f post,
          line = pre ++ [a, '.', b, c₁, ' ', d, '.', e, f, ' '] ++ g ++ post ∧
          isDigit09 a = true ∧ isDigit09 b = true ∧ isDigit09 c₁ = true ∧
          isDigit09 d = true ∧ isDigit09 e = true ∧ isDigit09 f = true := by
  obtain ⟨num, hnum, hgd, _⟩ := processLine_ok subj st st₂ (semLabel, line) hok
  refine ⟨num, hnum, ?_, ?_⟩
  · rw [hgd, dlookup_dinsert, if_pos rfl]
  · intro g hg
    unfold findGrade at hg
    obtain ⟨pre, rest, hsplit, hmatch⟩ := findGradeF_decomp _ line g hg
    obtain ⟨a, b, c, d, e, f, gc, tail, hrest, ha, hb, hc, hd, he, hf, hup, hgval⟩ :=
      matchGradeAt_spec rest g hmatch
    obtain ⟨hshape, post, htail⟩ := gradeTail_spec tail
    constructor
    · refine ⟨gc, hup, ?_⟩
      rcases hshape with h4 | h4 | h4 | h4 <;> rw [hgval, h4] <;> simp
    · refine ⟨pre, a, b, c, d, e, f, post, ?_, ha, hb, hc, hd, he, hf⟩
      rw [hsplit, hrest, hgval]
      have hgt : gc :: gradeTail tail ++ post = gc :: tail := by
        conv_rhs => rw [htail]
        rfl
      simp [hgt]

/-- Witness for C7 on a concrete graded course line. -/
theorem processLine_grade_witness :
    dlookup "MTH 9".data ([("MTH 9".data, "A".data)] : GradesDict) =
      some ((findGrade "MTH 9 L 3.00 4.00 A \n".data).getD
        (sem_abbr "Fall 2019".data)) := by
  obtain ⟨num, hnum, hdl, _⟩ := processLine_grade "MTH".data "Fall 2019".data
    "MTH 9 L 3.00 4.00 A \n".data ([], [])
    ([("MTH 9".data, "A".data)], [("MTH 9".data, 3)]) (by decide)
  have hn : num = "9".data := by
    have h9 : findCourseNum "MTH".data "MTH 9 L 3.00 4.00 A \n".data =
        some "9".data := by decide
    rw [h9] at hnum
    exact (Option.some.inj hnum).symm
  rw [hn] at hdl
  exact hdl

/-- C5: `personal_info` raises the propagated IndexError when the Name,
Student ID or Sex pattern finds nothing, whereas a missing 3-line address
block soft-fails: the call returns normally with all three address fields
bound to the empty string. -/
theorem personal_info_fields (t : List Char) :
    (findLabelFirst "Name : ".data t = none →
      personal_info t = Except.error PyErr.index) ∧
    (findLabelFirst "Student ID: ".data t = none →
      personal_info t = Except.error PyErr.index) ∧
    (findLabelFirst "Sex : ".data t = none →
      personal_info t = Except.error PyErr.index) ∧
    (∀ name sid sex, findLabelFirst "Name : ".data t = some name →
      findLabelFirst "Student ID: ".data t = some sid →
      findLabelFirst "Sex : ".data t = some sex →
      findAddress t = none →
      personal_info t = Except.ok
        [("Name".data, some (Cell.s name)),
         ("Student_ID".data, some (Cell.s sid)),
         ("Sex".data, some (Cell.s sex)),
         ("Address1".data, some (Cell.s [])),
         ("Address2".data, some (Cell.s [])),
         ("Address3".data, some (Cell.s []))]) := by
  refine ⟨?_, ?_, ?_, ?_⟩
  · intro h
    cases h2 : findLabelFirst "Student ID: ".data t <;>
      cases h3 : findLabelFirst "Sex : ".data t <;>
        simp [personal_info, h, h2, h3]
  · intro h
    cases h1 : findLabelFirst "Name : ".data t <;>
      cases h3 : findLabelFirst "Sex : ".data t <;>
        simp [personal_info, h, h1, h3]
  · intro h
    cases h1 : findLabelFirst "Name : ".data t <;>
      cases h2 : findLabelFirst "Student ID: ".data t <;>
        simp [personal_info, h, h1, h2]
  · intro name sid sex h1 h2 h3 ha
    simp [personal_info, h1, h2, h3, ha]

/-- Witness for C5: an address-free block returns empty address strings, a
block missing the Student ID label raises. -/
theorem personal_info_fields_witness :
    personal_info "Name : A\nStudent ID: 1\nSex : F\n".data = Except.ok
      [("Name".data, some (Cell.s "A".data)),
       ("Student_ID".data, some (Cell.s "1".data)),
       ("Sex".data, some (Cell.s "F".data)),
       ("Address1".data, some (Cell.s [])),
       ("Address2".data, some (Cell.s [])),
       ("Address3".data, some (Cell.s []))] ∧
    personal_info "Name : A\n".data = Except.error PyErr.index :=
  ⟨(personal_info_fields "Name : A\nStudent ID: 1\nSex : F\n".data).2.2.2
      "A".data "1".data "F".data (by decide) (by decide) (by decide) (by decide),
   (personal_info_fields "Name : A\n".data).2.1 (by decide)⟩

theorem mem_insortBy (a x : List Char) :
    ∀ l, a ∈ insortBy x l ↔ a = x ∨ a ∈ l := by
  intro l
  induction l with
  | nil => simp [insortBy]
  | cons y ys ih =>
    simp only [insortBy]
    split
    · simp [List.mem_cons]
    · simp [List.mem_cons, ih]
      tauto

theorem mem_natsorted_aux (a : List Char) :
    ∀ (l : List (List Char)) (acc : List (List Char)),
      a ∈ l.foldl (fun acc x => insortBy x acc) acc ↔ a ∈ acc ∨ a ∈ l := by
  intro l
  induction l with
  | nil => intro acc; simp
  | cons x xs ih =>
    intro acc
    rw [List.foldl_cons, ih (insortBy x acc), mem_insortBy]
    simp [List.mem_cons]
    tauto

theorem mem_natsorted (a : List Char) (l : List (List Char)) :
    a ∈ natsorted l ↔ a ∈ l := by
  unfold natsorted
  rw [mem_natsorted_aux]
  simp

/-- C6 counterexample: the first call (with the shared default credit table,
modelled as the empty incoming state) leaves `MTH 9 : 4.00` behind; a second
call on a different transcript then produces a different result table (an
extra `MTH 9` column) than the same call on a fresh state — so the result
does depend on which transcripts earlier calls processed. -/
theorem transcript_data_state_leak :
    (transcript_data
      ["Name : Alice A\nStudent ID: 1\nSex : F\nFall 2019\nMTH 9 L 4.00 4.00 A \n".data]
      []).toOption.map Prod.snd = some [("MTH 9".data, 4)] ∧
    (transcript_data
      ["Name : Bob B\nStudent ID: 2\nSex : M\nFall 2019\nMTH 8 L 3.00 3.00 B \n".data]
      [("MTH 9".data, 4)]).toOption.map (fun r => r.1.1) ≠
    (transcript_data
      ["Name : Bob B\nStudent ID: 2\nSex : M\nFall 2019\nMTH 8 L 3.00 3.00 B \n".data]
      []).toOption.map (fun r => r.1.1) :=
  ⟨by decide, by decide⟩

/-- C6 amended: state does persist between calls through the shared default
credit-table dict — a successful `transcript_data` call keeps every binding
of the incoming table (even for courses none of its transcripts mention) and
lists every such course as a column of its result table, so the result
depends on the credit-table state earlier calls left behind, not only on the
transcripts argument. -/
theorem transcript_data_state_dependence (ts : List (List Char)) (creds : CredTable)
    (tbl : List (List Char) × List (List (Option Cell))) (creds₂ : CredTable)
    (c : List Char) (v : ℚ)
    (hv : dlookup c creds = some v)
    (hok : transcript_data ts creds = Except.ok (tbl, creds₂)) :
    dlookup c creds₂ = some v ∧ c ∈ tbl.1 := by
  have hpres := transcript_data_preserves_creds ts creds tbl creds₂ c v hok hv
  refine ⟨hpres, ?_⟩
  have htbl : tbl.1 = tableCols creds₂ := by
    unfold transcript_data at hok
    split at hok
    · exact Except.noConfusion hok
    · rename_i rows c₂ hf
      have h2 := Except.ok.inj hok
      injection h2 with h3 h4
      rw [← h3, ← h4]
  rw [htbl]
  unfold tableCols
  have hkey : c ∈ creds₂.map Prod.fst := dlookup_mem_keys c v creds₂ hpres
  have hmem : c ∈ natsorted (creds₂.map Prod.fst) := (mem_natsorted c _).mpr hkey
  exact List.mem_append.mpr (Or.inr hmem)

/-- Witness for the amended C6: the `MTH 9` binding left by an earlier call
survives a call that never mentions `MTH 9`, and `MTH 9` is one of that
call's result columns. -/
theorem transcript_data_state_dependence_witness :
    dlookup "MTH 9".data [("MTH 9".data, (4 : ℚ)), ("MTH 8".data, 3)] = some 4 ∧
    "MTH 9".data ∈ tableCols [("MTH 9".data, (4 : ℚ)), ("MTH 8".data, 3)] := by
  have h := transcript_data_state_dependence
    ["Name : Bob B\nStudent ID: 2\nSex : M\nFall 2019\nMTH 8 L 3.00 3.00 B \n".data]
    [("MTH 9".data, (4 : ℚ))]
    (tableCols [("MTH 9".data, (4 : ℚ)), ("MTH 8".data, 3)],
      [projectRow (tableCols [("MTH 9".data, (4 : ℚ)), ("MTH 8".data, 3)])
        [("Name".data, some (Cell.s "Bob B".data)),
         ("Student_ID".data, some (Cell.s "2".data)),
         ("Sex".data, some (Cell.s "M".data)),
         ("Address1".data, some (Cell.s [])),
         ("Address2".data, some (Cell.s [])),
         ("Address3".data, some (Cell.s [])),
         ("MTH 8".data, some (Cell.s "B".data)),
         ("Num MTH^ courses".data, some (Cell.n 1)),
         ("Num MTH^ creds".data, some (Cell.q 3)),
         ("MTH^ GPA".data, some (Cell.q 3)),
         ("Num MTH^ now".data, some (Cell.n 0)),
         ("Num PHY^ courses".data, some (Cell.n 0)),
         ("Num PHY^ creds".data, some (Cell.q 0)),
         ("PHY^ GPA".data, none),
         ("Num PHY^ now".data, some (Cell.n 0))]])
    [("MTH 9".data, (4 : ℚ)), ("MTH 8".data, 3)] "MTH 9".data 4
    (by decide) (by decide)
  exact h

/-- Witness for C10 on a transcript declaring `Plan : Math`. -/
theorem plan_key_in_grades_witness :
    dlookup "Plan".data [("Plan".data, "Math".data), ("MTH 9".data, "A".data)] =
      some "Math".data ∧
    1 ≤ (⟨1, 3, some 4, 1⟩ : SubjSumm).num_in_progress :=
  ⟨(plan_key_in_grades "MTH".data
      "Fall 2019\nMTH 9 L 3.00 3.00 A \nPlan : Math\n".data []
      [("Plan".data, "Math".data), ("MTH 9".data, "A".data)]
      [("MTH 9".data, 3)] "Math".data (by decide) (by decide)).1,
   (plan_key_in_grades "MTH".data
      "Fall 2019\nMTH 9 L 3.00 3.00 A \nPlan : Math\n".data []
      [("Plan".data, "Math".data), ("MTH 9".data, "A".data)]
      [("MTH 9".data, 3)] "Math".data (by decide) (by decide)).2
      [] "Math".data ⟨1, 3, some 4, 1⟩ (by decide) (by decide) rfl⟩

end Transcripts
